import Mathlib

/-!
Verification of the attendance / leave-management application
(`attendance/models.py`, `attendance/views.py`) against its
natural-language specification.

Shallow embedding conventions:
* timestamps and calendar dates are integers (seconds, respectively day
  ordinals); Python `timedelta` arithmetic on them is plain `Int`
  arithmetic;
* Python `Decimal` values (leave day counts, balance `used`) have one
  decimal place (`decimal_places=1` on both columns) and their
  arithmetic here is exact, so they are embedded as integer counts of
  tenths of a day: `Decimal("0.5")` is `5`, `Decimal("2.5")` is `25`;
* database rows are structures, tables are lists of rows, and each view
  function is a pure state transformer on those lists;
* a Django `Model.objects.get` that raises `DoesNotExist` inside a
  `transaction.atomic` block makes the whole operation return `none`
  (the exception propagates, the transaction rolls back, no state
  change persists).
-/

namespace AttendanceTracker

/-! ## Data model (`attendance/models.py`) -/

/-- A row of the `Break` table (`models.py`, class `Break`): `break_in`
is a non-null datetime, `break_out` is nullable. -/
structure Break where
  break_in : Int
  break_out : Option Int
deriving DecidableEq, Repr

/-- A row of the `Attendance` table (`models.py`, class `Attendance`):
`employee` foreign key, `date`, non-null `check_in`, nullable
`check_out`, and the reverse relation `breaks`. -/
structure Attendance where
  employee : Nat
  date : Int
  check_in : Int
  check_out : Option Int
  breaks : List Break
deriving DecidableEq, Repr

/-- Method `Attendance.session_duration` (`models.py` lines 71-74): check-out
minus check-in when both are set, otherwise zero.  (`check_in` is a
non-null datetime, hence always truthy in the Python conditional.) -/
def session_duration (a : Attendance) : Int :=
  match a.check_out with
  | some out => out - a.check_in
  | none => 0

/-- Method `Attendance.break_total_duration` (`models.py` lines 84-89): sum of
`break_out - break_in` over the closed breaks only (`break_in` is
non-null, so the Python guard reduces to `break_out` being set). -/
def break_total_duration (a : Attendance) : Int :=
  a.breaks.foldl
    (fun total br =>
      match br.break_out with
      | some out => total + (out - br.break_in)
      | none => total)
    0

/-- Method `Attendance.working_duration` (`models.py` lines 99-101):
`max(session_duration - break_total_duration, timedelta(0))`. -/
def working_duration (a : Attendance) : Int :=
  max (session_duration a - break_total_duration a) 0

/-! ## Reporting aggregator (`views.py`, `employee_attendance_history`) -/

/-- Per-record working hours as computed by the weekly grouping of
`employee_attendance_history` (`views.py` lines 1528-1553):
the per-record working-hours value starts at `timedelta()` and is set to
`check_out - check_in - break_time` (closed breaks only) when both
timestamps are present — with no clamp at zero. -/
def history_working_hours (a : Attendance) : Int :=
  match a.check_out with
  | some out => (out - a.check_in) - break_total_duration a
  | none => 0

/-- Per-record contribution to the monthly `total_hours` sum of
`employee_attendance_history` (`views.py` lines 1626-1636):
`work_duration - break_duration` for records with both timestamps,
nothing otherwise. -/
def monthly_record_hours (a : Attendance) : Int :=
  match a.check_out with
  | some out => (out - a.check_in) - break_total_duration a
  | none => 0

/-- The weekly and the monthly site of the aggregator compute the same
per-record quantity. -/
theorem monthly_eq_history (a : Attendance) :
    monthly_record_hours a = history_working_hours a := rfl

/-! ## Leave data model and workflow (`models.py`, `views.py`) -/

/-- The `LeaveRequest.status` choices (`models.py` lines 185-189). -/
inductive LeaveStatus where
  | pending
  | approved
  | rejected
deriving DecidableEq, Repr

/-- A row of the `LeaveBalance` table (`models.py` lines 154-166):
unique per `(employee, leave_type)`; `used` is a one-decimal-place
`Decimal`, embedded exactly in tenths of a day. -/
structure LeaveBalance where
  employee : Nat
  leave_type : Nat
  total : Nat
  used : Int
deriving DecidableEq, Repr

/-- A row of the `LeaveRequest` table (`models.py` lines 179-216),
restricted to the fields the leave workflow reads (`total_days` in
tenths of a day). -/
structure LeaveRequest where
  employee : Nat
  leave_type : Nat
  total_days : Int
  status : LeaveStatus
deriving DecidableEq, Repr

/-- The `total_days` value as computed identically by `apply_leave` (`views.py`
lines 553-558) and `edit_leave` (`views.py` lines 619-624): the raw
POSTed `duration_type` string selects `Decimal("0.5")` (five tenths)
when it equals `"HALF"`, and the inclusive day span
`(end - start).days + 1` otherwise; the result is in tenths of a day. -/
def leave_total_days (duration_type : String) (start_date end_date : Int) : Int :=
  if duration_type = "HALF" then 5
  else 10 * (end_date - start_date + 1)

/-- A `LeaveBalance.objects.get(employee=…, leave_type=…)` call followed by an
update of `used`: finds the first row with the given key (the key is
unique by `unique_together`), applies `f` to its `used` field and saves
it; `none` models the `DoesNotExist` exception. -/
def updateFirstBalance (emp lt : Nat) (f : Int → Int) :
    List LeaveBalance → Option (List LeaveBalance)
  | [] => none
  | b :: bs =>
    if b.employee = emp ∧ b.leave_type = lt then
      some ({ b with used := f b.used } :: bs)
    else
      (updateFirstBalance emp lt f bs).map (b :: ·)

/-- View `admin_update_leave_status` (`views.py` lines 1217-1233), a
`@transaction.atomic` view: when transitioning into APPROVED for the
first time it locks and increments the `used` field of the matching balance by
`total_days` (a missing balance row raises `DoesNotExist`, rolling the
transaction back: result `none`); in every successful path the
`status` field of the request is then set to the new status. -/
def admin_update_leave_status (leave : LeaveRequest) (status : LeaveStatus)
    (balances : List LeaveBalance) :
    Option (List LeaveBalance × LeaveRequest) :=
  if status = .approved ∧ leave.status ≠ .approved then
    match updateFirstBalance leave.employee leave.leave_type
        (fun u => u + leave.total_days) balances with
    | none => none
    | some bs => some (bs, { leave with status := status })
  else
    some (balances, { leave with status := status })

/-- The deletion branch of `admin_leave_requests` (`views.py` lines
1189-1209): if the request is APPROVED, the `used` field of the matching balance
is decremented by `total_days`; a missing balance row is caught and
only produces a warning (`Bool` result `true`); in every case the
request row itself is deleted. -/
def admin_delete_leave_request (leave : LeaveRequest)
    (balances : List LeaveBalance) : List LeaveBalance × Bool :=
  if leave.status = .approved then
    match updateFirstBalance leave.employee leave.leave_type
        (fun u => u - leave.total_days) balances with
    | none => (balances, true)
    | some bs => (bs, false)
  else
    (balances, false)

/-! ## Attendance ledger operations (`views.py`) -/

/-- The instant 23:59:59 of day `d`, i.e. `datetime.combine(att.date, time(23, 59, 59))`
with days of 86400 seconds. -/
def endOfDay (d : Int) : Int :=
  86400 * d + 86399

/-- The `att.breaks.filter(break_out__isnull=True).update(break_out=end_of_day)`
step of the auto-close sweep, per break: an open break is closed at `t`,
a closed break is untouched. -/
def closeBreakIfOpen (t : Int) (b : Break) : Break :=
  if b.break_out = none then { b with break_out := some t } else b

/-- The per-record body of `auto_checkout_if_date_changed` (`views.py`
lines 186-198): a record of this employee dated strictly before today
with `check_out` unset gets `check_out = 23:59:59` of its own date and
all its open breaks closed at that same timestamp; any other record is
left alone. -/
def closeStale (emp : Nat) (today : Int) (r : Attendance) : Attendance :=
  if r.employee = emp ∧ r.date < today ∧ r.check_out = none then
    { r with
      check_out := some (endOfDay r.date)
      breaks := r.breaks.map (closeBreakIfOpen (endOfDay r.date)) }
  else r

/-- Helper `auto_checkout_if_date_changed(employee)` (`views.py` lines 168-200):
one atomic transaction closing every stale record of `emp`. -/
def auto_checkout_if_date_changed (emp : Nat) (today : Int)
    (s : List Attendance) : List Attendance :=
  s.map (closeStale emp today)

/-- The `Attendance.objects.filter(employee=…, date=…)` non-emptiness, as
consulted by `get_or_create`. -/
def hasRecordFor (emp : Nat) (d : Int) (s : List Attendance) : Bool :=
  s.any (fun r => r.employee = emp ∧ r.date = d)

/-- Apply `f` to the first record with the given `(employee, date)` key
— the row returned by `.filter(employee=…, date=…).first()` (unique
under the `unique_together` constraint); no matching row means no
change (the view only flashes a message). -/
def updateFirstAttendance (emp : Nat) (d : Int) (f : Attendance → Attendance) :
    List Attendance → List Attendance
  | [] => []
  | r :: rs =>
    if r.employee = emp ∧ r.date = d then f r :: rs
    else r :: updateFirstAttendance emp d f rs

/-- View `check_in` (`views.py` lines 350-391): runs the auto-close sweep,
then `Attendance.objects.get_or_create(employee=…, date=today,
defaults={"check_in": now})` — creating the record of the day only when
absent, never touching an existing one. -/
def check_in (emp : Nat) (today now : Int) (s : List Attendance) :
    List Attendance :=
  let s1 := auto_checkout_if_date_changed emp today s
  if hasRecordFor emp today s1 then s1
  else s1 ++ [⟨emp, today, now, none, []⟩]

/-- View `check_out` (`views.py` lines 394-425): looks up the record of today
(without running the auto-close sweep) and sets `check_out = now` only
when the record exists and `check_out` is still unset. -/
def check_out (emp : Nat) (today now : Int) (s : List Attendance) :
    List Attendance :=
  updateFirstAttendance emp today
    (fun r => if r.check_out = none then { r with check_out := some now } else r) s

/-- The mutation step of `break_in` (`views.py` lines 470-478): a new
`Break` row with `break_in = now` and no `break_out` is created only
when the record has no open break; otherwise the request is refused
with a flash message and no row is created. -/
def addBreakIfNoneOpen (now : Int) (r : Attendance) : Attendance :=
  if r.breaks.any (fun b => b.break_out = none) then r
  else { r with breaks := r.breaks ++ [⟨now, none⟩] }

/-- View `break_in` (`views.py` lines 432-480): runs the auto-close sweep,
then adds an open break to the record of today unless one is already open
(or no record exists for today). -/
def break_in (emp : Nat) (today now : Int) (s : List Attendance) :
    List Attendance :=
  updateFirstAttendance emp today (addBreakIfNoneOpen now)
    (auto_checkout_if_date_changed emp today s)

/-- The attendance-state effect of `dashboard` (`views.py` lines
218-343): the auto-close sweep is its only write to the ledger. -/
def dashboard (emp : Nat) (today : Int) (s : List Attendance) :
    List Attendance :=
  auto_checkout_if_date_changed emp today s

/-- Number of open (`break_out`-less) breaks of an attendance record. -/
def openBreakCount (r : Attendance) : Nat :=
  r.breaks.countP (fun b => b.break_out = none)

/-- The §3 invariant: at most one open break per attendance record. -/
def AtMostOneOpen (s : List Attendance) : Prop :=
  ∀ r ∈ s, openBreakCount r ≤ 1

/-- The §3 / §8 invariant: at most one attendance record per
`(employee, date)`. -/
def AtMostOnePerDay (s : List Attendance) : Prop :=
  s.Pairwise (fun a b => ¬(a.employee = b.employee ∧ a.date = b.date))

/-! ## Admin attendance editor (`views.py`, `admin_edit_attendance`) -/

/-- One break row of the admin edit form (`views.py` lines 1089-1117):
a checked `delete_break_<id>` box, a `break_in_<id>` field and a
`break_out_<id>` field.  Datetime parsing is abstracted: a field holds
the parsed value, `none` meaning empty or unparsable (`_parse_dt`
returns `None` for both). -/
structure BreakEdit where
  delete : Bool
  edit_break_in : Option Int
  edit_break_out : Option Int
deriving DecidableEq, Repr

/-- The admin edit form (`views.py` lines 1062-1124): `check_in` /
`check_out` fields, one `BreakEdit` per existing break (positionally),
and the optional new break.  `edit_check_out` holds the parsed value
(the code turns both an empty and an unparsable `check_out` field into
`None` without erroring); `new_break_in = none` means the field was
left empty (no new break), `some none` a non-empty unparsable value
(an error), `some (some t)` a parsed timestamp; `new_break_out` is
parsed the same loose way as `edit_check_out`. -/
structure EditForm where
  edit_check_in : Option Int
  edit_check_out : Option Int
  break_edits : List BreakEdit
  new_break_in : Option (Option Int)
  new_break_out : Option Int
deriving DecidableEq, Repr

/-- The per-existing-break loop of `admin_edit_attendance` (`views.py`
lines 1090-1117): a break marked for deletion is removed at once;
otherwise its `break_in` must parse and `break_out` (when given) must
not precede it, and both fields are overwritten — an empty `break_out`
reopens the break.  A validation failure stops the loop (`false`), but
the deletions and updates already performed stay saved, as in the
source, where each iteration calls `br.delete()` / `br.save()` before
the next is validated. -/
def applyBreakEdits : List Break → List BreakEdit → List Break × Bool
  | [], _ => ([], true)
  | b :: bs, [] => (b :: bs, false)
  | b :: bs, e :: es =>
    if e.delete then applyBreakEdits bs es
    else
      match e.edit_break_in with
      | none => (b :: bs, false)
      | some bi =>
        if e.edit_break_out.any (fun bo => bo < bi) then (b :: bs, false)
        else
          let rest := applyBreakEdits bs es
          (⟨bi, e.edit_break_out⟩ :: rest.1, rest.2)

/-- The POST branch of `admin_edit_attendance` (`views.py` lines
1038-1146): validates and saves `check_in` / `check_out` first, then
applies the break edits one by one, then appends the optional new
break (whose `break_out` may be left empty, creating an open break).
The `Bool` is `false` on a validation failure, in which case the state
already saved before the failing step persists, exactly as in the
source (the view re-renders the form but never rolls back). -/
def admin_edit_attendance (att : Attendance) (form : EditForm) :
    Attendance × Bool :=
  match form.edit_check_in with
  | none => (att, false)
  | some ci =>
    if form.edit_check_out.any (fun co => co < ci) then (att, false)
    else
      let att1 := { att with check_in := ci, check_out := form.edit_check_out }
      let edited := applyBreakEdits att.breaks form.break_edits
      if edited.2 = false then ({ att1 with breaks := edited.1 }, false)
      else
        match form.new_break_in with
        | none => ({ att1 with breaks := edited.1 }, true)
        | some none => ({ att1 with breaks := edited.1 }, false)
        | some (some nbi) =>
          if form.new_break_out.any (fun bo => bo < nbi) then
            ({ att1 with breaks := edited.1 }, false)
          else
            ({ att1 with breaks := edited.1 ++ [⟨nbi, form.new_break_out⟩] }, true)

/-! ## Office-network gate (`models.py` `AllowedIPRange.contains_ip`,
`views.py` `validate_office_network_ip` lines 142-165)

The embedding covers the IPv4 fragment of the Python `ipaddress` module that the
stored ranges exercise: dotted-quad addresses (ASCII decimal octets,
no leading zeros, each at most 255) and CIDR blocks with an integer
prefix length, parsed with `strict=False` so host bits are ignored by
masking.  Any string outside this fragment fails to parse, and a parse
failure is caught and mapped to "no match", as in the source clause
`except (AddressValueError, ValueError): return False`. -/

/-- A row of the `AllowedIPRange` table (`models.py` lines 13-28). -/
structure AllowedIPRange where
  name : String
  ip_range : String
  is_active : Bool
  description : String
deriving DecidableEq, Repr

/-- Split a character list at every occurrence of `sep` (the character
analogue of the Python `str.split`). -/
def splitOnChar (sep : Char) : List Char → List (List Char)
  | [] => [[]]
  | c :: cs =>
    match splitOnChar sep cs with
    | [] => if c = sep then [[], []] else [[c]]
    | h :: t => if c = sep then [] :: h :: t else (c :: h) :: t

/-- One dotted-quad octet, as accepted by `ipaddress.IPv4Address`:
non-empty, ASCII digits only, no leading zero, value at most 255. -/
def parseOctet (cs : List Char) : Option Nat :=
  if cs = [] then none
  else if ¬ cs.all (fun c => c.isDigit) then none
  else if 1 < cs.length ∧ cs.head? = some '0' then none
  else
    let v := cs.foldl (fun acc c => 10 * acc + (c.toNat - 48)) 0
    if v ≤ 255 then some v else none

/-- Function `ipaddress.ip_address` on an IPv4 dotted-quad string, as the
32-bit value. -/
def parseIPv4 (s : String) : Option Nat :=
  match (splitOnChar '.' s.data).mapM parseOctet with
  | some [a, b, c, d] => some (((a * 256 + b) * 256 + c) * 256 + d)
  | _ => none

/-- An IPv4 prefix length, as accepted by
`IPv4Network._prefix_from_prefix_string`: ASCII digits (leading zeros
tolerated there), value at most 32. -/
def parsePrefixLen (cs : List Char) : Option Nat :=
  if cs = [] then none
  else if ¬ cs.all (fun c => c.isDigit) then none
  else
    let v := cs.foldl (fun acc c => 10 * acc + (c.toNat - 48)) 0
    if v ≤ 32 then some v else none

/-- Function `ipaddress.ip_network(s, strict=False)` on an IPv4 CIDR string:
the (unmasked) network address and the prefix length. -/
def parseCIDR (s : String) : Option (Nat × Nat) :=
  match splitOnChar '/' s.data with
  | [a, p] =>
    match parseIPv4 (String.mk a), parsePrefixLen p with
    | some na, some pl => some (na, pl)
    | _, _ => none
  | _ => none

/-- Method `AllowedIPRange.contains_ip` (`models.py` lines 33-51): a range
containing `/` is tested by CIDR containment — with `strict=False` the
host bits of the network address are masked away, so membership is
equality of the top `prefix` bits; a range without `/` is plain string
equality; any parse failure yields `False`. -/
def contains_ip (r : AllowedIPRange) (ip_address : String) : Bool :=
  if r.ip_range.data.contains '/' then
    match parseCIDR r.ip_range, parseIPv4 ip_address with
    | some (na, pl), some ipn =>
      ipn / 2 ^ (32 - pl) == na / 2 ^ (32 - pl)
    | _, _ => false
  else ip_address == r.ip_range

/-- The range-evaluation core of `validate_office_network_ip`
(`views.py` lines 142-165): the resolved client address is allowed iff
some currently-active `AllowedIPRange` contains it. -/
def validate_office_network_ip (ranges : List AllowedIPRange)
    (client_ip : String) : Bool :=
  (ranges.filter (fun r => r.is_active)).any
    (fun r => contains_ip r client_ip)

/-! ## Lemmas about balance updates -/

/-- A successful `updateFirstBalance` splits the table at the first
matching row and rewrites only the `used` field of that row. -/
theorem updateFirstBalance_spec (emp lt : Nat) (f : Int → Int) :
    ∀ (l l1 : List LeaveBalance), updateFirstBalance emp lt f l = some l1 →
      ∃ pre b post, l = pre ++ b :: post ∧
        (∀ x ∈ pre, ¬(x.employee = emp ∧ x.leave_type = lt)) ∧
        b.employee = emp ∧ b.leave_type = lt ∧
        l1 = pre ++ { b with used := f b.used } :: post := by
  intro l
  induction l with
  | nil => intro l1 h; simp [updateFirstBalance] at h
  | cons b bs ih =>
    intro l1 h
    by_cases hb : b.employee = emp ∧ b.leave_type = lt
    · rw [updateFirstBalance, if_pos hb] at h
      refine ⟨[], b, bs, by simp, by simp, hb.1, hb.2, ?_⟩
      simpa using h.symm
    · rw [updateFirstBalance, if_neg hb] at h
      rcases Option.map_eq_some'.mp h with ⟨l2, h2, rfl⟩
      rcases ih l2 h2 with ⟨pre, c, post, rfl, hpre, hc1, hc2, rfl⟩
      exact ⟨b :: pre, c, post, rfl,
        by intro x hx; rcases List.mem_cons.mp hx with rfl | hx
           · exact hb
           · exact hpre x hx,
        hc1, hc2, rfl⟩

/-- Updating the first matching row and then updating it back with an
inverse function restores the original table. -/
theorem updateFirstBalance_roundtrip (emp lt : Nat) (f g : Int → Int)
    (hfg : ∀ x, g (f x) = x) :
    ∀ (l l1 : List LeaveBalance), updateFirstBalance emp lt f l = some l1 →
      updateFirstBalance emp lt g l1 = some l := by
  intro l
  induction l with
  | nil => intro l1 h; simp [updateFirstBalance] at h
  | cons b bs ih =>
    intro l1 h
    by_cases hb : b.employee = emp ∧ b.leave_type = lt
    · rw [updateFirstBalance, if_pos hb] at h
      cases Option.some.inj h
      have hl : ({ b with used := g (f b.used) } : LeaveBalance) = b := by
        rw [hfg]
      rw [updateFirstBalance, if_pos hb]
      exact congrArg some (congrArg (· :: bs) hl)
    · rw [updateFirstBalance, if_neg hb] at h
      rcases Option.map_eq_some'.mp h with ⟨l2, h2, rfl⟩
      rw [updateFirstBalance, if_neg hb, ih l2 h2]
      rfl

/-- With no matching row, `updateFirstBalance` reports `DoesNotExist`. -/
theorem updateFirstBalance_none (emp lt : Nat) (f : Int → Int) :
    ∀ l : List LeaveBalance,
      (∀ b ∈ l, ¬(b.employee = emp ∧ b.leave_type = lt)) →
      updateFirstBalance emp lt f l = none := by
  intro l
  induction l with
  | nil => intro _; rfl
  | cons b bs ih =>
    intro h
    rw [updateFirstBalance, if_neg (h b (List.mem_cons_self b bs)),
      ih (fun x hx => h x (List.mem_cons_of_mem b hx))]
    rfl

/-! ## Claim theorems: leave workflow -/

/-- C1: approving a PENDING request with a matching balance row
increments exactly the `used` field of that row by `total_days` (first match, all
other rows untouched), marks the request APPROVED, and a subsequent
admin deletion of the now-APPROVED request restores the balance table
to exactly its prior value (with no missing-balance warning). -/
theorem approve_then_delete_roundtrip
    (balances bs1 : List LeaveBalance) (leave l1 : LeaveRequest)
    (hp : leave.status = .pending)
    (happr : admin_update_leave_status leave .approved balances = some (bs1, l1)) :
    (∃ pre b post, balances = pre ++ b :: post ∧
      (∀ x ∈ pre, ¬(x.employee = leave.employee ∧ x.leave_type = leave.leave_type)) ∧
      b.employee = leave.employee ∧ b.leave_type = leave.leave_type ∧
      bs1 = pre ++ { b with used := b.used + leave.total_days } :: post) ∧
    l1 = { leave with status := .approved } ∧
    admin_delete_leave_request l1 bs1 = (balances, false) := by
  have hcond : (LeaveStatus.approved = LeaveStatus.approved ∧
      leave.status ≠ LeaveStatus.approved) := by
    exact ⟨rfl, by rw [hp]; intro hc; cases hc⟩
  rw [admin_update_leave_status, if_pos hcond] at happr
  rcases hupd : updateFirstBalance leave.employee leave.leave_type
      (fun u => u + leave.total_days) balances with _ | bs
  · rw [hupd] at happr; cases happr
  · rw [hupd] at happr
    have hpair := Option.some.inj happr
    rw [Prod.mk.injEq] at hpair
    obtain ⟨h1, h2⟩ := hpair
    subst h1
    subst h2
    refine ⟨updateFirstBalance_spec _ _ _ _ _ hupd, rfl, ?_⟩
    rw [admin_delete_leave_request, if_pos rfl]
    rw [updateFirstBalance_roundtrip leave.employee leave.leave_type
      (fun u => u + leave.total_days) (fun u => u - leave.total_days)
      (fun x => by show x + leave.total_days - leave.total_days = x; omega)
      balances bs hupd]

/-- Witness for C1 at a concrete table: one balance row, a 2.5-day
(25 tenths) pending request. -/
theorem approve_then_delete_roundtrip_witness :
    (∃ pre b post, ([⟨0, 0, 10, 0⟩] : List LeaveBalance) = pre ++ b :: post ∧
      (∀ x ∈ pre, ¬(x.employee = (⟨0, 0, 25, .pending⟩ : LeaveRequest).employee ∧
        x.leave_type = (⟨0, 0, 25, .pending⟩ : LeaveRequest).leave_type)) ∧
      b.employee = (⟨0, 0, 25, .pending⟩ : LeaveRequest).employee ∧
      b.leave_type = (⟨0, 0, 25, .pending⟩ : LeaveRequest).leave_type ∧
      ([⟨0, 0, 10, 25⟩] : List LeaveBalance) =
        pre ++ { b with used := b.used + (⟨0, 0, 25, .pending⟩ : LeaveRequest).total_days } :: post) ∧
    (⟨0, 0, 25, LeaveStatus.approved⟩ : LeaveRequest) =
      { (⟨0, 0, 25, .pending⟩ : LeaveRequest) with status := .approved } ∧
    admin_delete_leave_request ⟨0, 0, 25, LeaveStatus.approved⟩ [⟨0, 0, 10, 25⟩] =
      ([⟨0, 0, 10, 0⟩], false) :=
  approve_then_delete_roundtrip [⟨0, 0, 10, 0⟩] [⟨0, 0, 10, 25⟩]
    ⟨0, 0, 25, .pending⟩ ⟨0, 0, 25, .approved⟩ rfl (by decide)

/-- C8: transitioning an APPROVED request to REJECTED leaves the whole
balance table unchanged — no reversal of the earlier increment — and
only the `status` field of the request changes. -/
theorem reject_after_approve_frame (leave : LeaveRequest)
    (balances : List LeaveBalance) (_h : leave.status = .approved) :
    admin_update_leave_status leave .rejected balances =
      some (balances, { leave with status := .rejected }) := by
  rw [admin_update_leave_status, if_neg]
  intro hc
  cases hc.1

/-- Witness for C8. -/
theorem reject_after_approve_frame_witness :
    admin_update_leave_status ⟨0, 0, 25, LeaveStatus.approved⟩ .rejected
        [⟨0, 0, 10, 25⟩] =
      some ([⟨0, 0, 10, 25⟩],
        { (⟨0, 0, 25, LeaveStatus.approved⟩ : LeaveRequest) with status := .rejected }) :=
  reject_after_approve_frame ⟨0, 0, 25, .approved⟩ [⟨0, 0, 10, 25⟩] rfl

/-- C10: approving a PENDING request whose employee has no balance row
for the leave type hits an unhandled `DoesNotExist` inside the atomic
transaction — the operation aborts with no state change (result
`none`, so the status stays PENDING and no balance moves) — whereas
admin deletion of an APPROVED request with the same missing row merely
warns (`true`), keeps the balances unchanged and still deletes the
request. -/
theorem approve_missing_balance_fault
    (leave leaveA : LeaveRequest) (balances : List LeaveBalance)
    (hp : leave.status = .pending)
    (hmiss : ∀ b ∈ balances,
      ¬(b.employee = leave.employee ∧ b.leave_type = leave.leave_type))
    (ha : leaveA.status = .approved)
    (hmissA : ∀ b ∈ balances,
      ¬(b.employee = leaveA.employee ∧ b.leave_type = leaveA.leave_type)) :
    admin_update_leave_status leave .approved balances = none ∧
    admin_delete_leave_request leaveA balances = (balances, true) := by
  constructor
  · rw [admin_update_leave_status,
      if_pos ⟨rfl, by rw [hp]; intro hc; cases hc⟩,
      updateFirstBalance_none _ _ _ balances hmiss]
  · rw [admin_delete_leave_request, if_pos ha,
      updateFirstBalance_none _ _ _ balances hmissA]

/-- Witness for C10: one unrelated balance row (different employee). -/
theorem approve_missing_balance_fault_witness :
    admin_update_leave_status ⟨0, 0, 25, LeaveStatus.pending⟩ .approved
        [⟨1, 1, 10, 0⟩] = none ∧
    admin_delete_leave_request ⟨0, 0, 25, LeaveStatus.approved⟩
        [⟨1, 1, 10, 0⟩] = ([⟨1, 1, 10, 0⟩], true) :=
  approve_missing_balance_fault ⟨0, 0, 25, .pending⟩ ⟨0, 0, 25, .approved⟩
    [⟨1, 1, 10, 0⟩] rfl (by decide) rfl (by decide)

/-- C9: a HALF-duration leave always yields `total_days = 0.5` (five
tenths) whatever the dates; a FULL-duration leave yields the inclusive
day span, so a one-day leave from day `d` to day `d` yields 1 day
(ten tenths). -/
theorem leave_total_days_spec (s e d : Int) :
    leave_total_days "HALF" s e = 5 ∧
    leave_total_days "FULL" s e = 10 * (e - s + 1) ∧
    leave_total_days "FULL" d d = 10 := by
  refine ⟨rfl, rfl, ?_⟩
  rw [leave_total_days, if_neg (by decide)]
  omega

/-! ## Claim theorems: durations -/

/-- C4: the derived working duration is exactly
`max(session - break_total, 0)` — session being `check_out - check_in`
when checked out and zero otherwise, break total summing closed breaks
only — and is therefore never negative, for arbitrary stored values. -/
theorem working_duration_nonneg (a : Attendance) :
    working_duration a = max (session_duration a - break_total_duration a) 0 ∧
    0 ≤ working_duration a :=
  ⟨rfl, le_max_right _ _⟩

/-- C5 counterexample: on a record whose single closed break (100s) is
longer than its session (10s), the reporting aggregator computes -90
seconds while `working_duration` clamps to 0, so the two embeddings of
"working hours" do not agree on all inputs. -/
theorem history_hours_ne_working_duration :
    history_working_hours ⟨0, 0, 0, some 10, [⟨0, some 100⟩]⟩ = -90 ∧
    working_duration ⟨0, 0, 0, some 10, [⟨0, some 100⟩]⟩ = 0 ∧
    history_working_hours ⟨0, 0, 0, some 10, [⟨0, some 100⟩]⟩ ≠
      working_duration ⟨0, 0, 0, some 10, [⟨0, some 100⟩]⟩ := by
  refine ⟨rfl, rfl, by decide⟩

/-- C5 amended: the per-record working hours of the aggregator coincide with
`Attendance.working_duration` exactly on the records where the clamp is
inert — break total at most the session length, or no check-out with a
nonnegative break total; when the closed-break total exceeds the
session length the aggregator returns the (negative) difference while
`working_duration` returns zero. -/
theorem history_hours_refines_working_duration (a : Attendance)
    (hb : 0 ≤ break_total_duration a)
    (h : a.check_out = none ∨ break_total_duration a ≤ session_duration a) :
    history_working_hours a = working_duration a := by
  rcases hco : a.check_out with _ | out
  · simp only [history_working_hours, working_duration, session_duration, hco]
    rw [max_eq_right (by omega)]
  · simp only [history_working_hours, working_duration, session_duration,
      hco] at h ⊢
    rcases h with h | h
    · simp at h
    · rw [max_eq_left (by omega)]

/-- Witness for C5 amended: a 9-hour session with a half-hour break
(the §8 scenario: 09:00-18:00 with a 12:00-12:30 break, in seconds). -/
theorem history_hours_refines_witness :
    history_working_hours ⟨0, 0, 32400, some 64800, [⟨43200, some 45000⟩]⟩ =
      working_duration ⟨0, 0, 32400, some 64800, [⟨43200, some 45000⟩]⟩ :=
  history_hours_refines_working_duration
    ⟨0, 0, 32400, some 64800, [⟨43200, some 45000⟩]⟩ (by decide) (by decide)

/-! ## Claim theorems: office-network gate -/

/-- C6: the gate grants access iff some currently-active range contains
the resolved address; a slash-bearing range that fails to parse as a
CIDR block never matches any address (and the check is a total
function, never a fault); the concrete cases of the spec: 192.168.1.50 is
accepted against an active 192.168.1.0/24, rejected against an active
10.0.0.0/24, and an inactive range never grants access whatever its
contents. -/
theorem office_gate_spec (ranges : List AllowedIPRange) (ip : String) :
    (validate_office_network_ip ranges ip = true ↔
      ∃ r ∈ ranges, r.is_active = true ∧ contains_ip r ip = true) ∧
    (∀ (r : AllowedIPRange) (ip2 : String),
      r.ip_range.data.contains '/' = true → parseCIDR r.ip_range = none →
      contains_ip r ip2 = false) ∧
    validate_office_network_ip
      [⟨"Office", "192.168.1.0/24", true, ""⟩] "192.168.1.50" = true ∧
    validate_office_network_ip
      [⟨"Other", "10.0.0.0/24", true, ""⟩] "192.168.1.50" = false ∧
    (∀ nm descr rng,
      validate_office_network_ip [⟨nm, rng, false, descr⟩] ip = false) := by
  refine ⟨?_, ?_, by decide, by decide, fun nm descr rng => rfl⟩
  · simp [validate_office_network_ip, List.any_eq_true, List.mem_filter,
      and_assoc]
  · intro r ip2 h1 h2
    rw [contains_ip, if_pos h1, h2]

/-- Witness for C6: an active but malformed CIDR range never matches. -/
theorem office_gate_spec_witness :
    contains_ip ⟨"Bad", "banana/24", true, ""⟩ "10.0.0.1" = false :=
  (office_gate_spec [] "").2.1 ⟨"Bad", "banana/24", true, ""⟩ "10.0.0.1"
    (by decide) (by decide)

/-! ## Lemmas about the attendance ledger operations -/

theorem closeStale_employee (emp : Nat) (t : Int) (r : Attendance) :
    (closeStale emp t r).employee = r.employee := by
  rw [closeStale]; split <;> rfl

theorem closeStale_date (emp : Nat) (t : Int) (r : Attendance) :
    (closeStale emp t r).date = r.date := by
  rw [closeStale]; split <;> rfl

theorem closeStale_check_in (emp : Nat) (t : Int) (r : Attendance) :
    (closeStale emp t r).check_in = r.check_in := by
  rw [closeStale]; split <;> rfl

theorem closeStale_of_not (emp : Nat) (t : Int) (r : Attendance)
    (h : ¬(r.employee = emp ∧ r.date < t ∧ r.check_out = none)) :
    closeStale emp t r = r := by
  rw [closeStale, if_neg h]

theorem closeStale_idem (emp : Nat) (t : Int) (r : Attendance) :
    closeStale emp t (closeStale emp t r) = closeStale emp t r := by
  by_cases h : r.employee = emp ∧ r.date < t ∧ r.check_out = none
  · have hin : closeStale emp t r =
        { r with
          check_out := some (endOfDay r.date)
          breaks := r.breaks.map (closeBreakIfOpen (endOfDay r.date)) } := by
      rw [closeStale, if_pos h]
    rw [hin, closeStale, if_neg]
    intro hc
    exact Option.noConfusion hc.2.2
  · have hin : closeStale emp t r = r := closeStale_of_not emp t r h
    rw [hin]
    exact hin

theorem auto_checkout_idem (emp : Nat) (today : Int) (s : List Attendance) :
    auto_checkout_if_date_changed emp today
        (auto_checkout_if_date_changed emp today s) =
      auto_checkout_if_date_changed emp today s := by
  simp only [auto_checkout_if_date_changed, List.map_map]
  exact List.map_congr_left (fun r _ => closeStale_idem emp today r)

theorem length_auto_checkout (emp : Nat) (today : Int) (s : List Attendance) :
    (auto_checkout_if_date_changed emp today s).length = s.length := by
  simp [auto_checkout_if_date_changed]

theorem hasRecordFor_auto (emp emp2 : Nat) (d today : Int)
    (s : List Attendance) :
    hasRecordFor emp d (auto_checkout_if_date_changed emp2 today s) =
      hasRecordFor emp d s := by
  simp only [hasRecordFor, auto_checkout_if_date_changed, List.any_map]
  apply congrArg
  funext r
  simp [Function.comp, closeStale_employee, closeStale_date]

theorem getq_updateFirstAttendance_of_not (emp : Nat) (d : Int)
    (f : Attendance → Attendance) :
    ∀ (s : List Attendance) (i : Nat) (r : Attendance),
      s[i]? = some r → ¬(r.employee = emp ∧ r.date = d) →
      (updateFirstAttendance emp d f s)[i]? = some r := by
  intro s
  induction s with
  | nil => intro i r hr _; simp at hr
  | cons a as ih =>
    intro i r hr hnot
    by_cases ha : a.employee = emp ∧ a.date = d
    · rw [updateFirstAttendance, if_pos ha]
      cases i with
      | zero =>
        simp only [List.getElem?_cons_zero, Option.some.injEq] at hr
        exact absurd (hr ▸ ha) hnot
      | succ n =>
        simp only [List.getElem?_cons_succ] at hr ⊢
        exact hr
    · rw [updateFirstAttendance, if_neg ha]
      cases i with
      | zero => simpa using hr
      | succ n =>
        simp only [List.getElem?_cons_succ] at hr ⊢
        exact ih n r hr hnot

theorem mem_updateFirstAttendance (emp : Nat) (d : Int)
    (f : Attendance → Attendance) :
    ∀ (s : List Attendance) (x : Attendance),
      x ∈ updateFirstAttendance emp d f s →
      x ∈ s ∨ ∃ r ∈ s, x = f r := by
  intro s
  induction s with
  | nil => intro x hx; exact absurd hx (List.not_mem_nil x)
  | cons r rs ih =>
    intro x hx
    by_cases hr : r.employee = emp ∧ r.date = d
    · rw [updateFirstAttendance, if_pos hr] at hx
      rcases List.mem_cons.mp hx with rfl | hx
      · exact Or.inr ⟨r, List.mem_cons_self r rs, rfl⟩
      · exact Or.inl (List.mem_cons_of_mem r hx)
    · rw [updateFirstAttendance, if_neg hr] at hx
      rcases List.mem_cons.mp hx with rfl | hx
      · exact Or.inl (List.mem_cons_self x rs)
      · rcases ih x hx with hin | ⟨r2, hr2, rfl⟩
        · exact Or.inl (List.mem_cons_of_mem r hin)
        · exact Or.inr ⟨r2, List.mem_cons_of_mem r hr2, rfl⟩

theorem closeBreakIfOpen_break_out (t : Int) (b : Break) :
    (closeBreakIfOpen t b).break_out = some (b.break_out.getD t) := by
  rw [closeBreakIfOpen]
  split
  · rename_i h; rw [h]; rfl
  · rename_i h
    rcases hb : b.break_out with _ | x
    · exact absurd hb h
    · rfl

theorem openBreakCount_closeStale (emp : Nat) (t : Int) (r : Attendance) :
    openBreakCount (closeStale emp t r) ≤ openBreakCount r := by
  by_cases h : r.employee = emp ∧ r.date < t ∧ r.check_out = none
  · rw [closeStale, if_pos h]
    have h0 : openBreakCount
        ({ r with
           check_out := some (endOfDay r.date)
           breaks := r.breaks.map (closeBreakIfOpen (endOfDay r.date)) } :
          Attendance) = 0 := by
      rw [openBreakCount, List.countP_eq_zero]
      intro b hb
      rcases List.mem_map.mp hb with ⟨b0, _, rfl⟩
      simp [closeBreakIfOpen_break_out]
    rw [h0]
    exact Nat.zero_le _
  · rw [closeStale_of_not emp t r h]

theorem openBreakCount_addBreak (now : Int) (r : Attendance)
    (h : openBreakCount r ≤ 1) :
    openBreakCount (addBreakIfNoneOpen now r) ≤ 1 := by
  rw [addBreakIfNoneOpen]
  split
  · exact h
  · rename_i ha
    have h0 : openBreakCount r = 0 := by
      rw [openBreakCount, List.countP_eq_zero]
      intro b hb
      intro hbo
      exact ha (List.any_eq_true.mpr ⟨b, hb, hbo⟩)
    rw [openBreakCount] at h0 ⊢
    simp [List.countP_append, h0]

theorem check_in_of_has (emp : Nat) (today now : Int) (s : List Attendance)
    (h : hasRecordFor emp today s = true) :
    check_in emp today now s = auto_checkout_if_date_changed emp today s := by
  have hc : hasRecordFor emp today
      (auto_checkout_if_date_changed emp today s) = true := by
    rw [hasRecordFor_auto]; exact h
  simp only [check_in, hc, if_true]

theorem check_in_of_not_has (emp : Nat) (today now : Int)
    (s : List Attendance) (h : hasRecordFor emp today s = false) :
    check_in emp today now s =
      auto_checkout_if_date_changed emp today s ++ [⟨emp, today, now, none, []⟩] := by
  have hc : hasRecordFor emp today
      (auto_checkout_if_date_changed emp today s) = false := by
    rw [hasRecordFor_auto]; exact h
  simp only [check_in, hc, Bool.false_eq_true, if_false]

theorem closeStale_today (emp : Nat) (today now : Int) :
    closeStale emp today (⟨emp, today, now, none, []⟩ : Attendance) =
      ⟨emp, today, now, none, []⟩ := by
  apply closeStale_of_not
  intro hc
  exact absurd hc.2.1 (lt_irrefl today)

/-! ## Claim theorems: check-in -/

/-- C3: `check_in` is get-or-create keyed on `(employee, date)`: with no
record for today it appends exactly one new record carrying
`check_in = now`; with one already present it performs no write beyond
the auto-close sweep; it is idempotent; it preserves the
at-most-one-record-per-(employee, date) invariant; and it never alters
the `check_in`, `employee` or `date` field of any pre-existing record. -/
theorem check_in_get_or_create (emp : Nat) (today now : Int)
    (s : List Attendance) :
    (hasRecordFor emp today s = false →
      check_in emp today now s =
        auto_checkout_if_date_changed emp today s ++
          [⟨emp, today, now, none, []⟩]) ∧
    (hasRecordFor emp today s = true →
      check_in emp today now s = auto_checkout_if_date_changed emp today s) ∧
    check_in emp today now (check_in emp today now s) =
      check_in emp today now s ∧
    (AtMostOnePerDay s → AtMostOnePerDay (check_in emp today now s)) ∧
    (∀ (i : Nat) (r : Attendance), s[i]? = some r →
      ∃ r2, (check_in emp today now s)[i]? = some r2 ∧
        r2.check_in = r.check_in ∧ r2.employee = r.employee ∧
        r2.date = r.date) := by
  have hpres : ∀ (i : Nat) (r : Attendance), s[i]? = some r →
      ∃ r2, (check_in emp today now s)[i]? = some r2 ∧
        r2.check_in = r.check_in ∧ r2.employee = r.employee ∧
        r2.date = r.date := by
    intro i r hr
    have hmap : (auto_checkout_if_date_changed emp today s)[i]? =
        some (closeStale emp today r) := by
      rw [auto_checkout_if_date_changed, List.getElem?_map, hr]
      rfl
    have hlt : i < (auto_checkout_if_date_changed emp today s).length := by
      rw [List.getElem?_eq_some_iff] at hmap
      exact hmap.1
    refine ⟨closeStale emp today r, ?_, closeStale_check_in emp today r,
      closeStale_employee emp today r, closeStale_date emp today r⟩
    by_cases hc : hasRecordFor emp today s = true
    · rw [check_in_of_has emp today now s hc]
      exact hmap
    · rw [check_in_of_not_has emp today now s (Bool.eq_false_iff.mpr hc),
        List.getElem?_append_left hlt]
      exact hmap
  refine ⟨check_in_of_not_has emp today now s,
    check_in_of_has emp today now s, ?_, ?_, hpres⟩
  · by_cases hc : hasRecordFor emp today s = true
    · rw [check_in_of_has emp today now s hc,
        check_in_of_has emp today now _
          (by rw [hasRecordFor_auto]; exact hc),
        auto_checkout_idem]
    · have hc2 := Bool.eq_false_iff.mpr hc
      rw [check_in_of_not_has emp today now s hc2]
      have hnew : hasRecordFor emp today
          (auto_checkout_if_date_changed emp today s ++
            [⟨emp, today, now, none, []⟩]) = true := by
        simp [hasRecordFor, List.any_append]
      rw [check_in_of_has emp today now _ hnew,
        auto_checkout_if_date_changed, List.map_append, ← auto_checkout_if_date_changed,
        auto_checkout_idem]
      simp only [List.map_cons, List.map_nil, closeStale_today]
  · intro hinv
    have hmap : AtMostOnePerDay (auto_checkout_if_date_changed emp today s) := by
      refine List.Pairwise.map (closeStale emp today) ?_ hinv
      intro a b hab hc
      exact hab ⟨by
        rw [closeStale_employee, closeStale_employee] at hc
        exact hc.1, by
        have := hc.2
        rw [closeStale_date, closeStale_date] at this
        exact this⟩
    by_cases hc : hasRecordFor emp today s = true
    · rw [check_in_of_has emp today now s hc]
      exact hmap
    · have hc2 := Bool.eq_false_iff.mpr hc
      rw [check_in_of_not_has emp today now s hc2]
      rw [AtMostOnePerDay, List.pairwise_append]
      refine ⟨hmap, List.pairwise_singleton _ _, ?_⟩
      intro a ha b hb hcon
      have hb2 : b = (⟨emp, today, now, none, []⟩ : Attendance) := by
        simpa using hb
      have hno : ∀ r ∈ s, ¬(r.employee = emp ∧ r.date = today) := by
        intro r hr hcr
        have : hasRecordFor emp today s = true :=
          List.any_eq_true.mpr ⟨r, hr, by simpa using hcr⟩
        rw [this] at hc2
        cases hc2
      rcases List.mem_map.mp ha with ⟨a0, ha0, rfl⟩
      apply hno a0 ha0
      subst hb2
      constructor
      · rw [← closeStale_employee emp today a0]
        exact hcon.1
      · rw [← closeStale_date emp today a0]
        exact hcon.2

/-- Witness for C3: a first check-in on an empty ledger creates the
record with `check_in = now`. -/
theorem check_in_get_or_create_witness :
    check_in 0 1 5 ([] : List Attendance) =
      auto_checkout_if_date_changed 0 1 [] ++ [⟨0, 1, 5, none, []⟩] :=
  (check_in_get_or_create 0 1 5 []).1 (by decide)

/-! ## Claim theorems: auto-close sweep -/

/-- C2 amended: check-in, break-start and the dashboard view (the
actions that call `auto_checkout_if_date_changed`; check-out does not)
close every stale record — belonging to the employee, dated strictly before
today, `check_out` unset — by setting its `check_out` to 23:59:59 of
the own date of the record and closing each of its still-open breaks to the
same timestamp; the sweep is idempotent; and a record that is not
stale (in particular the record of today) is never touched by it. -/
theorem auto_close_sweep (emp : Nat) (today now : Int)
    (s : List Attendance) (i : Nat) (r : Attendance)
    (hr : s[i]? = some r) (hemp : r.employee = emp)
    (hdate : r.date < today) (hopen : r.check_out = none) :
    (check_in emp today now s)[i]? = some (closeStale emp today r) ∧
    (break_in emp today now s)[i]? = some (closeStale emp today r) ∧
    (dashboard emp today s)[i]? = some (closeStale emp today r) ∧
    (closeStale emp today r).check_out = some (endOfDay r.date) ∧
    (closeStale emp today r).breaks =
      r.breaks.map (closeBreakIfOpen (endOfDay r.date)) ∧
    (∀ (t : Int) (b : Break),
      (closeBreakIfOpen t b).break_out = some (b.break_out.getD t)) ∧
    (∀ s2 : List Attendance,
      auto_checkout_if_date_changed emp today
          (auto_checkout_if_date_changed emp today s2) =
        auto_checkout_if_date_changed emp today s2) ∧
    (∀ r2 : Attendance,
      ¬(r2.employee = emp ∧ r2.date < today ∧ r2.check_out = none) →
      closeStale emp today r2 = r2) := by
  have hcond : r.employee = emp ∧ r.date < today ∧ r.check_out = none :=
    ⟨hemp, hdate, hopen⟩
  have hcs : closeStale emp today r =
      { r with
        check_out := some (endOfDay r.date)
        breaks := r.breaks.map (closeBreakIfOpen (endOfDay r.date)) } := by
    rw [closeStale, if_pos hcond]
  have hmap : (auto_checkout_if_date_changed emp today s)[i]? =
      some (closeStale emp today r) := by
    rw [auto_checkout_if_date_changed, List.getElem?_map, hr]
    rfl
  have hlt : i < (auto_checkout_if_date_changed emp today s).length :=
    (List.getElem?_eq_some_iff.mp hmap).1
  refine ⟨?_, ?_, hmap, by rw [hcs], by rw [hcs],
    closeBreakIfOpen_break_out, auto_checkout_idem emp today, ?_⟩
  · by_cases hc : hasRecordFor emp today s = true
    · rw [check_in_of_has emp today now s hc]
      exact hmap
    · rw [check_in_of_not_has emp today now s (Bool.eq_false_iff.mpr hc),
        List.getElem?_append_left hlt]
      exact hmap
  · rw [break_in]
    apply getq_updateFirstAttendance_of_not _ _ _ _ _ _ hmap
    intro hc
    rw [closeStale_date] at hc
    exact absurd hc.2 (ne_of_lt hdate)
  · exact closeStale_of_not emp today

/-- C2 counterexample: the claim includes check-out among the actions
that trigger the sweep, but `check_out` never calls
`auto_checkout_if_date_changed`: invoked on day 1 against a ledger
holding only a stale record dated day 0 (check_out unset, one open
break), it leaves the ledger unchanged — for the stale record the
`check_out` stays `none` instead of becoming 23:59:59 of day 0. -/
theorem check_out_no_sweep :
    check_out 0 1 50 [⟨0, 0, 5, none, [⟨7, none⟩]⟩] =
      [⟨0, 0, 5, none, [⟨7, none⟩]⟩] ∧
    (⟨0, 0, 5, none, [⟨7, none⟩]⟩ : Attendance).date < 1 ∧
    (⟨0, 0, 5, none, [⟨7, none⟩]⟩ : Attendance).check_out = none ∧
    (none : Option Int) ≠ some (endOfDay 0) := by decide

/-- Witness for C2 amended: day 1 check-in closes the stale day-0
record. -/
theorem auto_close_sweep_witness :
    (check_in 0 1 50 [⟨0, 0, 5, none, [⟨7, none⟩]⟩])[0]? =
      some (closeStale 0 1 ⟨0, 0, 5, none, [⟨7, none⟩]⟩) :=
  (auto_close_sweep 0 1 50 [⟨0, 0, 5, none, [⟨7, none⟩]⟩] 0
    ⟨0, 0, 5, none, [⟨7, none⟩]⟩ rfl rfl (by decide) rfl).1

/-! ## Claim theorems: open-break invariant -/

/-- C7 amended: the employee-side break-start preserves the
at-most-one-open-break-per-record invariant, and a break-start against
a record that already has an open break is rejected without creating a
new `Break` row; the admin attendance editor, by contrast, does not
preserve the invariant (see the counterexample, where it reopens a
closed break and appends a second open one). -/
theorem break_start_invariant (emp : Nat) (today now : Int)
    (s : List Attendance) (hinv : AtMostOneOpen s) :
    AtMostOneOpen (break_in emp today now s) ∧
    (∀ r : Attendance, 1 ≤ openBreakCount r →
      addBreakIfNoneOpen now r = r) := by
  constructor
  · intro x hx
    rw [break_in] at hx
    rcases mem_updateFirstAttendance _ _ _ _ x hx with hin | ⟨r2, hr2, rfl⟩
    · rcases List.mem_map.mp hin with ⟨r0, hr0, rfl⟩
      exact le_trans (openBreakCount_closeStale emp today r0) (hinv r0 hr0)
    · rcases List.mem_map.mp hr2 with ⟨r0, hr0, rfl⟩
      exact openBreakCount_addBreak now _
        (le_trans (openBreakCount_closeStale emp today r0) (hinv r0 hr0))
  · intro r h1
    rw [addBreakIfNoneOpen, if_pos]
    rw [openBreakCount] at h1
    obtain ⟨b, hb, hbo⟩ :=
      List.countP_pos_iff.mp (Nat.lt_of_lt_of_le Nat.zero_lt_one h1)
    exact List.any_eq_true.mpr ⟨b, hb, hbo⟩

/-- C7 counterexample: starting from a record satisfying the invariant
(one closed break), a single valid admin edit — blanking the existing
end of the existing break and adding a new break with no end — succeeds and yields
two open breaks on the record. -/
theorem admin_edit_two_open_breaks :
    openBreakCount ⟨0, 0, 5, none, [⟨10, some 20⟩]⟩ ≤ 1 ∧
    (admin_edit_attendance ⟨0, 0, 5, none, [⟨10, some 20⟩]⟩
      ⟨some 0, none, [⟨false, some 10, none⟩], some (some 30), none⟩).2 = true ∧
    openBreakCount (admin_edit_attendance ⟨0, 0, 5, none, [⟨10, some 20⟩]⟩
      ⟨some 0, none, [⟨false, some 10, none⟩], some (some 30), none⟩).1 = 2 := by
  decide

/-- Witness for C7 amended: break-start on a one-record ledger. -/
theorem break_start_invariant_witness :
    AtMostOneOpen (break_in 0 1 50 [⟨0, 1, 5, none, []⟩]) :=
  (break_start_invariant 0 1 50 [⟨0, 1, 5, none, []⟩]
    (by intro r hr; fin_cases hr; decide)).1

end AttendanceTracker
